import Mathlib

/-!
Verification development for the element indexing and targeting engine of
`scripts/browser.js`: the in-page scan script `ELEMENTS_JS` (shadow-piercing
DOM walker, interactive-element classifier, modal-scope resolver, dedup,
index stamping) and the interaction commands `ensureIndexed`, `cmdClick`,
`cmdType` built on it.

Modelling conventions (shallow embedding of the live DOM):
* A DOM element is `Node`: its scalar data (`ElemData`), an optional shadow
  root (`Shadow`), and its light children (`Forest`).  `Forest` is a bespoke
  list so that the three types form a mutual inductive family and every
  traversal is structural (hence kernel-computable by `rfl`/`decide`).
* `ElemData.id` models JavaScript reference identity of a DOM node.
* DOM properties read by the source (`el.type`, `el.value`, `el.placeholder`,
  `el.name`, `el.disabled`, `el.isContentEditable`, `el.textContent`) are
  fields; `getAttribute` reads go through the `attrs` association list.
  `el.href` is modelled as the `href` attribute value (no URL resolution).
* `rendered` models `el.offsetParent !== null`; `fixed` models
  `getComputedStyle(el).position === 'fixed'`.
* The stamp attribute `data-bjs-idx` is the `stamp` field; writing/removing
  the attribute is modelled as a data-only tree map keyed by node identity,
  the denotation of the source's in-place `setAttribute`/`removeAttribute`
  (the scan loop never reads stamps, so batch stamping is observationally
  equivalent to stamping during the loop).
-/

structure ElemData where
  id : Nat
  tag : String
  attrs : List (String × String)
  typ : String
  value : String
  placeholder : String
  name : String
  textContent : String
  disabled : Bool
  isContentEditable : Bool
  rendered : Bool
  fixed : Bool
  stamp : Option Nat
deriving DecidableEq

mutual

inductive Node where
  | mk (data : ElemData) (shadow : Shadow) (children : Forest)
deriving DecidableEq

inductive Shadow where
  | null
  | root (f : Forest)
deriving DecidableEq

inductive Forest where
  | nil
  | cons (n : Node) (f : Forest)
deriving DecidableEq

end

def Node.data : Node → ElemData
  | .mk d _ _ => d

def Node.children : Node → Forest
  | .mk _ _ ch => ch

def Node.shadow : Node → Shadow
  | .mk _ sh _ => sh

/-- `getAttribute(k) || ''`: the attribute value, or `""` when absent. -/
def attrOf (e : ElemData) (k : String) : String :=
  match e.attrs.find? (fun p => p.1 == k) with
  | Option.some p => p.2
  | Option.none => ""

/-- CSS attribute-presence test `[k]`. -/
def hasAttrE (e : ElemData) (k : String) : Bool :=
  (e.attrs.find? (fun p => p.1 == k)).isSome

/- ── String helpers mirroring the JavaScript string operations ── -/

/-- `String.prototype.trim`: strip leading and trailing whitespace. -/
def jsTrim (s : String) : String :=
  String.mk (((s.data.dropWhile Char.isWhitespace).reverse.dropWhile
    Char.isWhitespace).reverse)

/-- `s.slice(0, n)` for a non-negative `n`. -/
def jsTake (n : Nat) (s : String) : String :=
  String.mk (s.data.take n)

/-- `s.replace(/\s+/g, ' ')`: collapse every whitespace run to one space. -/
def collapseWsAux (prevWs : Bool) : List Char → List Char
  | [] => []
  | c :: rest =>
    if c.isWhitespace then
      (if prevWs then [] else [' ']) ++ collapseWsAux true rest
    else c :: collapseWsAux false rest

def collapseWs (s : String) : String :=
  String.mk (collapseWsAux false s.data)

/-- `hay.includes(needle)`. -/
def inclAux (needle : List Char) : List Char → Bool
  | [] => needle.isPrefixOf []
  | c :: rest => needle.isPrefixOf (c :: rest) || inclAux needle rest

def strIncludes (hay needle : String) : Bool :=
  inclAux needle.data hay.data

/-- `s.startsWith(p)`. -/
def jsStartsWith (s p : String) : Bool :=
  p.data.isPrefixOf s.data

/-- `s.length` (modelled on characters). -/
def jsLength (s : String) : Nat :=
  s.data.length

/- ── Tree traversals ── -/

mutual

/-- Light-DOM elements of one node in document order, paired with the tag of
their parent element (`Option.none` for a child of the document or of a
shadow root); needed for the `details > summary` selector. -/
def lightElemsN (par : Option String) : Node → List (Option String × Node)
  | .mk d sh ch => (par, .mk d sh ch) :: lightElemsF (Option.some d.tag) ch

def lightElemsF (par : Option String) : Forest → List (Option String × Node)
  | .nil => []
  | .cons n f => lightElemsN par n ++ lightElemsF par f

end

/-- `root.querySelectorAll('*')` style list of light-DOM elements. -/
def lightNodesF (f : Forest) : List Node :=
  (lightElemsF Option.none f).map (fun x => x.2)

def lightNodesN (n : Node) : List Node :=
  (lightElemsN Option.none n).map (fun x => x.2)

mutual

/-- Every element reachable from the forest, entering every shadow root at
any depth, paired with its parent element tag. -/
def deepElemsN (par : Option String) : Node → List (Option String × Node)
  | .mk d sh ch =>
      (par, .mk d sh ch) ::
        (deepElemsS sh ++ deepElemsF (Option.some d.tag) ch)

def deepElemsS : Shadow → List (Option String × Node)
  | .null => []
  | .root f => deepElemsF Option.none f

def deepElemsF (par : Option String) : Forest → List (Option String × Node)
  | .nil => []
  | .cons n f => deepElemsN par n ++ deepElemsF par f

end

mutual

/-- Every element reachable from a node/shadow/forest, entering every
shadow root at any depth. -/
def allNodesN : Node → List Node
  | .mk d sh ch => .mk d sh ch :: (allNodesS sh ++ allNodesF ch)

def allNodesS : Shadow → List Node
  | .null => []
  | .root f => allNodesF f

def allNodesF : Forest → List Node
  | .nil => []
  | .cons n f => allNodesN n ++ allNodesF f

end

mutual

/-- Elements reachable only through at least one shadow boundary, with
parent-tag pairing (the complement of `lightElemsF` inside `deepElemsF`). -/
def shadowElemsN : Node → List (Option String × Node)
  | .mk _ sh ch => shadowElemsS sh ++ shadowElemsF ch

def shadowElemsS : Shadow → List (Option String × Node)
  | .null => []
  | .root f => lightElemsF Option.none f ++ shadowElemsF f

def shadowElemsF : Forest → List (Option String × Node)
  | .nil => []
  | .cons n f => shadowElemsN n ++ shadowElemsF f

end

mutual

/-- `root.querySelector(p)`: first light-DOM element satisfying `p`, in
document order. -/
def lightFindN (p : Node → Bool) : Node → Option Node
  | .mk d sh ch =>
    if p (.mk d sh ch) then Option.some (.mk d sh ch) else lightFindF p ch

def lightFindF (p : Node → Bool) : Forest → Option Node
  | .nil => Option.none
  | .cons n f =>
    match lightFindN p n with
    | Option.some r => Option.some r
    | Option.none => lightFindF p f

end

mutual

/-- Data-only tree map (attribute/property rewrite on every element,
including shadow content). -/
def mapDataN (g : ElemData → ElemData) : Node → Node
  | .mk d sh ch => .mk (g d) (mapDataS g sh) (mapDataF g ch)

def mapDataS (g : ElemData → ElemData) : Shadow → Shadow
  | .null => .null
  | .root f => .root (mapDataF g f)

def mapDataF (g : ElemData → ElemData) : Forest → Forest
  | .nil => .nil
  | .cons n f => .cons (mapDataN g n) (mapDataF g f)

end

/-- `deepClearStamps(document)`: remove `data-bjs-idx` everywhere, inside
every nested shadow root. -/
def clearStamps (f : Forest) : Forest :=
  mapDataF (fun d => { d with stamp := Option.none }) f

/-- Stamping pass of the scan: the node whose identity is at position `i` of
`ids` receives stamp `i` (`el.setAttribute('data-bjs-idx', results.length)`),
every other node keeps its (just cleared) stamp. -/
def stampApply (ids : List Nat) (f : Forest) : Forest :=
  mapDataF (fun d =>
    match ids.findIdx? (fun i => i == d.id) with
    | Option.some i => { d with stamp := Option.some i }
    | Option.none => d) f

/-- Light matches of `root.querySelectorAll(selectors)` for a selector
modelled as a predicate over (parent tag, element). -/
def lightMatchesF (p : Option String → Node → Bool) (par : Option String)
    (f : Forest) : List Node :=
  ((lightElemsF par f).filter (fun x => p x.1 x.2)).map (fun x => x.2)

mutual

/-- The shadow recursion of `deepQueryAll`: for each light element in
document order, the full deep query of its shadow root (if any). -/
def shadowPassF (p : Option String → Node → Bool) : Forest → List Node
  | .nil => []
  | .cons n f => shadowPassN p n ++ shadowPassF p f

def shadowPassN (p : Option String → Node → Bool) : Node → List Node
  | .mk _ sh ch => shadowPassS p sh ++ shadowPassF p ch

def shadowPassS (p : Option String → Node → Bool) : Shadow → List Node
  | .null => []
  | .root f => lightMatchesF p Option.none f ++ shadowPassF p f

end

/-- `deepQueryAll(root, selectors)`: all light matches of the root first,
then, for each element in document order, the deep matches of its shadow
root — recursing into shadow roots found inside other shadow roots. -/
def deepQueryAll (p : Option String → Node → Bool) (par : Option String)
    (f : Forest) : List Node :=
  lightMatchesF p par f ++ shadowPassF p f

def stampIs (idx : Nat) (n : Node) : Bool :=
  n.data.stamp == Option.some idx

mutual

/-- The shadow recursion of `deepQueryStamp`. -/
def stampShadowF (idx : Nat) : Forest → Option Node
  | .nil => Option.none
  | .cons n f =>
    match stampShadowN idx n with
    | Option.some r => Option.some r
    | Option.none => stampShadowF idx f

def stampShadowN (idx : Nat) : Node → Option Node
  | .mk _ sh ch =>
    match stampShadowS idx sh with
    | Option.some r => Option.some r
    | Option.none => stampShadowF idx ch

def stampShadowS (idx : Nat) : Shadow → Option Node
  | .null => Option.none
  | .root f =>
    match lightFindF (stampIs idx) f with
    | Option.some r => Option.some r
    | Option.none => stampShadowF idx f

end

/-- `deepQueryStamp(root, idx)`: first the light query for
`[data-bjs-idx="idx"]`, then each element's shadow root in document order. -/
def deepQueryStamp (idx : Nat) (f : Forest) : Option Node :=
  match lightFindF (stampIs idx) f with
  | Option.some r => Option.some r
  | Option.none => stampShadowF idx f

/- ── Interactive element classifier (ELEMENTS_JS) ── -/

/-- The interactive selector list of `ELEMENTS_JS`:
`a[href], button, input, select, textarea, [role="button"], [role="link"],
[role="tab"], [role="menuitem"], [role="checkbox"], [role="radio"],
[role="textbox"], [onclick], [tabindex]:not([tabindex="-1"]),
details > summary, [contenteditable="true"]`. -/
def interactivePred (par : Option String) (n : Node) : Bool :=
  let e := n.data
  let role := attrOf e "role"
  (e.tag == "a" && hasAttrE e "href") ||
  e.tag == "button" || e.tag == "input" || e.tag == "select" ||
  e.tag == "textarea" ||
  role == "button" || role == "link" || role == "tab" ||
  role == "menuitem" || role == "checkbox" || role == "radio" ||
  role == "textbox" ||
  hasAttrE e "onclick" ||
  (hasAttrE e "tabindex" && attrOf e "tabindex" != "-1") ||
  (e.tag == "summary" && par == Option.some "details") ||
  attrOf e "contenteditable" == "true"

/-- Negation of the scan loop's skip test
`el.offsetParent === null && el.tagName !== 'BODY' &&
getComputedStyle(el).position !== 'fixed'`. -/
def visibleE (e : ElemData) : Bool :=
  e.rendered || e.tag == "body" || e.fixed

/-- `el.disabled || el.getAttribute('aria-disabled') === 'true'`. -/
def isDisabledE (e : ElemData) : Bool :=
  e.disabled || attrOf e "aria-disabled" == "true"

/-- Label derivation of the scan loop. -/
def labelOf (e : ElemData) : String :=
  let role := attrOf e "role"
  let base :=
    if e.tag == "a" then "link"
    else if e.tag == "button" || role == "button" then "button"
    else if e.tag == "input" then
      (if e.typ != "" then "input:" ++ e.typ else "input")
    else if e.tag == "select" then "select"
    else if e.tag == "textarea" then "textarea"
    else if role == "textbox" then "textbox"
    else if role != "" then role
    else e.tag
  if isDisabledE e then base ++ ":disabled" else base

/-- `(tag === 'input' || tag === 'select' || tag === 'textarea')
? (el.value || '').slice(0, 40) : ''`. -/
def valOf (e : ElemData) : String :=
  if e.tag == "input" || e.tag == "select" || e.tag == "textarea" then
    jsTake 40 e.value
  else ""

/-- `(el.textContent || '').trim().slice(0, 80).replace(/\s+/g, ' ')`. -/
def textOf (e : ElemData) : String :=
  collapseWs (jsTake 80 (jsTrim e.textContent))

/-- `let desc = ariaLabel || text || placeholder || name || ''`. -/
def descBase (e : ElemData) : String :=
  let ariaLabel := attrOf e "aria-label"
  if ariaLabel != "" then ariaLabel
  else if textOf e != "" then textOf e
  else if e.placeholder != "" then e.placeholder
  else e.name

/-- `if (value && !desc.includes(value)) desc += desc ? ' [' + value + ']'
: value`. -/
def descWithValue (e : ElemData) : String :=
  let desc := descBase e
  let value := valOf e
  if value != "" && !(strIncludes desc value) then
    (if desc != "" then desc ++ " [" ++ value ++ "]" else value)
  else desc

/-- Full description of the scan loop, before the final 120-char cut:
the anchor-href clause
`if (tag === 'a' && href && !href.startsWith('javascript:')) ...`. -/
def descOf (e : ElemData) : String :=
  let desc := descWithValue e
  let href := attrOf e "href"
  if e.tag == "a" && href != "" && !(jsStartsWith href "javascript:") then
    let short :=
      if jsLength href > 60 then jsTake 57 href ++ "..." else href
    (if desc != "" then desc ++ " → " ++ short else short)
  else desc

/-- One pushed result entry: `{ label, desc: desc.slice(0, 120) }`. -/
def entryOf (e : ElemData) : String × String :=
  (labelOf e, jsTake 120 (descOf e))

/- ── Modal-scope resolver ── -/

/-- The dialog selector `[role=dialog], [role=presentation],
[aria-modal=true]`. -/
def matchesDialogSel (e : ElemData) : Bool :=
  attrOf e "role" == "dialog" || attrOf e "role" == "presentation" ||
  attrOf e "aria-modal" == "true"

/-- The dialog rendering filter
`d.offsetParent !== null || getComputedStyle(d).position === 'fixed'`. -/
def dlgRendered (e : ElemData) : Bool :=
  e.rendered || e.fixed

/-- `allDialogs`: a plain `document.querySelectorAll` (light DOM only,
no shadow piercing), filtered by the rendering test. -/
def dialogCandidates (f : Forest) : List Node :=
  (lightNodesF f).filter (fun n => matchesDialogSel n.data &&
    dlgRendered n.data)

/-- `realDialogs`: candidates with `role === 'dialog'` or
`aria-modal === 'true'`. -/
def realDialogs (f : Forest) : List Node :=
  (dialogCandidates f).filter (fun n => attrOf n.data "role" == "dialog" ||
    attrOf n.data "aria-modal" == "true")

/-- `topDialog = (realDialogs.length > 0 ? realDialogs[last]
: allDialogs[last]) || null`. -/
def topDialogOf (f : Forest) : Option Node :=
  match (realDialogs f).getLast? with
  | Option.some d => Option.some d
  | Option.none => (dialogCandidates f).getLast?

/-- `d.contains(el)`: node-tree containment (self included, not crossing
shadow boundaries), with `id` modelling reference identity. -/
def nodeContains (d : Node) (n : Node) : Bool :=
  ((lightNodesN d).map (fun m => m.data.id)).contains n.data.id

/-- `topDialog && topDialog.contains(el)`. -/
def inTopDialog (f : Forest) (n : Node) : Bool :=
  match topDialogOf f with
  | Option.some d => nodeContains d n
  | Option.none => false

/-- All interactive candidates of the scan
(`deepQueryAll(root, 'a[href], button, ...')` with `root = document`). -/
def interactiveOf (f : Forest) : List Node :=
  deepQueryAll interactivePred Option.none f

/-- The modal-bias sort: ES2019+ `Array.prototype.sort` is stable, and the
comparator `aInDialog - bInDialog` has a two-valued key, so the sort is
exactly the stable partition moving dialog descendants to the front. -/
def sortedOf (f : Forest) : List Node :=
  (interactiveOf f).filter (fun n => inTopDialog f n) ++
    (interactiveOf f).filter (fun n => !(inTopDialog f n))

/-- The dedup key `scope + '|' + label + '|' + desc` (built from the full
description, before the 120-char cut of the pushed entry). -/
def keyOf (f : Forest) (n : Node) : String :=
  (if inTopDialog f n then "modal" else "page") ++ "|" ++
    labelOf n.data ++ "|" ++ descOf n.data

/-- The main scan loop `for (const el of sorted) { ... }`: skip elements
with no rendered box (unless body or fixed), skip keys already seen, and
collect the kept nodes and their pushed entries in order. -/
def scanLoop (key : Node → String) : List Node → List String →
    List Node × List (String × String)
  | [], _ => ([], [])
  | n :: rest, seen =>
    if !(visibleE n.data) then scanLoop key rest seen
    else if seen.contains (key n) then scanLoop key rest seen
    else
      let out := scanLoop key rest (key n :: seen)
      (n :: out.1, entryOf n.data :: out.2)

/-- The nodes surviving the scan loop, in index order. -/
def scanKept (f : Forest) : List Node :=
  (scanLoop (keyOf f) (sortedOf f) []).1

/-- The scan result entries (`results`), index = position. -/
def scanEntriesCore (f : Forest) : List (String × String) :=
  (scanLoop (keyOf f) (sortedOf f) []).2

/-- Full `ELEMENTS_JS` result for `selector = null`: clear all stamps
(including inside every shadow root), then run the walker, resolver and
dedup loop on the document. -/
def scanEntries (doc : Forest) : List (String × String) :=
  scanEntriesCore (clearStamps doc)

/-- The document after a full scan: stamps cleared, then the kept nodes
stamped `0, 1, 2, ...` in order. -/
def scanDoc (doc : Forest) : Forest :=
  let c := clearStamps doc
  stampApply ((scanKept c).map (fun n => n.data.id)) c

/- ── Index resolution and interaction commands ── -/

/-- Page state seen by one CLI invocation: the document tree and whether
`window.__bjsDeepQuery` has been installed by a previous `ELEMENTS_JS` run
in this page. -/
structure PageState where
  doc : Forest
  bjs : Bool

/-- Effects dispatched through the CDP transport or into the page by the
interaction commands. -/
inductive Act where
  | scan
  | scroll
  | mousePressed
  | mouseReleased
  | selectAll
  | keyDown
  | keyUp
  | clearValue
  | insertText
  | setValueSync
deriving DecidableEq

/-- `ELEMENTS_JS` also installs `window.__bjsDeepQuery` before scanning. -/
def scanState (st : PageState) : PageState :=
  { doc := scanDoc st.doc, bjs := true }

/-- `ensureIndexed`: probe
`!!(document.querySelector('[data-bjs-idx]') ||
(window.__bjsDeepQuery && window.__bjsDeepQuery(0)))`; when it fails,
run a full scan with no selector.  Returns whether a re-index happened. -/
def ensureIndexed (st : PageState) : Bool × PageState :=
  let hasIdx :=
    (lightFindF (fun n => n.data.stamp.isSome) st.doc).isSome ||
      (st.bjs && (deepQueryStamp 0 st.doc).isSome)
  if hasIdx then (false, st) else (true, scanState st)

/-- Element lookup for click/type:
`(window.__bjsDeepQuery && window.__bjsDeepQuery(idx)) ||
document.querySelector('[data-bjs-idx="idx"]')`. -/
def resolveStamp (st : PageState) (idx : Nat) : Option Node :=
  match (if st.bjs then deepQueryStamp idx st.doc else Option.none) with
  | Option.some el => Option.some el
  | Option.none => lightFindF (stampIs idx) st.doc

/-- Click-time label: `el.getAttribute('role') || el.tagName.toLowerCase()`. -/
def clickLabelOf (e : ElemData) : String :=
  if attrOf e "role" != "" then attrOf e "role" else e.tag

/-- Click-time description:
`(el.getAttribute('aria-label') || el.textContent || '').trim().slice(0, 80)`. -/
def clickDescOf (e : ElemData) : String :=
  jsTake 80 (jsTrim
    (if attrOf e "aria-label" != "" then attrOf e "aria-label"
     else e.textContent))

/-- `cmdClick`: ensure indexing, resolve the stamp, scroll the element into
view, and dispatch one mousePressed + mouseReleased pair at its center.
Returns the printed message and the effect trace. -/
def cmdClick (st : PageState) (idx : Nat) : String × List Act :=
  let ensured := ensureIndexed st
  let pre := if ensured.1 then [Act.scan] else []
  match resolveStamp ensured.2 idx with
  | Option.none =>
    ("Element not found at index " ++ toString idx ++ ". Try: elements", pre)
  | Option.some el =>
    ("Clicked: (" ++ clickLabelOf el.data ++ ") " ++ clickDescOf el.data,
     pre ++ [Act.scroll, Act.mousePressed, Act.mouseReleased])

/-- The text-entry check of `cmdType`:
`tag === 'input' || tag === 'textarea' || ce || role === 'textbox'`. -/
def typeableOf (e : ElemData) : Bool :=
  e.tag == "input" || e.tag == "textarea" || e.isContentEditable ||
    attrOf e "role" == "textbox"

/-- `cmdType`: ensure indexing, resolve, reject non-typeable elements before
any further effect; otherwise focus-click, clear (select-all + Backspace for
contenteditable, `el.value = ''` for form controls), insert the text via
`Input.insertText`, and for form controls re-set the value through the
prototype setter with input/change events (`setValueSync`). -/
def cmdType (st : PageState) (idx : Nat) (_text : String) :
    String × List Act :=
  let ensured := ensureIndexed st
  let pre := if ensured.1 then [Act.scan] else []
  match resolveStamp ensured.2 idx with
  | Option.none =>
    ("Element [" ++ toString idx ++ "] not found. Run elements to re-index.",
     pre)
  | Option.some el =>
    let e := el.data
    if !(typeableOf e) then
      ("Element [" ++ toString idx ++ "] is a " ++ e.tag ++
        ", not a text input. Run elements to re-index.", pre)
    else
      let clearActs :=
        if e.isContentEditable then
          [Act.selectAll, Act.keyDown, Act.keyUp]
        else [Act.clearValue]
      let post := if e.isContentEditable then [] else [Act.setValueSync]
      ("Typed into [" ++ toString idx ++ "] (" ++ e.tag ++
        (if e.isContentEditable then ", contenteditable" else "") ++ ")",
       pre ++ [Act.scroll, Act.mousePressed, Act.mouseReleased] ++
         clearActs ++ [Act.insertText] ++ post)

/- ── Spec-side definitions (for refinement comparison only) ── -/

/-- Modelled from the spec: first-occurrence deduplication — "identical
label+description combos occurring twice in the same scope collapse to one
entry, keeping the first encountered after ordering". -/
def specFirstOccur (key : Node → String) (l : List Node)
    (seen : List String) : List Node :=
  match l with
  | [] => []
  | n :: rest =>
    if seen.contains (key n) then specFirstOccur key rest seen
    else n :: specFirstOccur key rest (key n :: seen)

/-- Modelled from the spec (as amended for C6): description =
first non-empty of aria-label / trimmed-collapsed visible text (≤ 80) /
placeholder / name; a non-empty current value not already contained in it
is appended (in brackets when the description is non-empty, bare
otherwise); for an anchor whose href is non-empty and not a `javascript:`
URL, the href truncated to at most 60 chars is appended (with an arrow
separator when the description is non-empty, bare otherwise). -/
def specDesc (e : ElemData) : String :=
  let base :=
    (([attrOf e "aria-label", textOf e, e.placeholder,
       e.name].find? (fun s => s != "")).getD "")
  let valPart :=
    if valOf e = "" ∨ strIncludes base (valOf e) = true then ""
    else if base = "" then valOf e else " [" ++ valOf e ++ "]"
  let withVal := base ++ valPart
  let href := attrOf e "href"
  let hrefShort :=
    if jsLength href ≤ 60 then href else jsTake 57 href ++ "..."
  let hrefPart :=
    if e.tag = "a" ∧ href ≠ "" ∧ jsStartsWith href "javascript:" = false then
      (if withVal = "" then hrefShort else " → " ++ hrefShort)
    else ""
  withVal ++ hrefPart

/- ── Concrete pages used by closed conjuncts and witnesses ── -/

/-- Default element data: rendered, no attributes, everything empty. -/
def baseE (id : Nat) (tag : String) : ElemData :=
  { id := id, tag := tag, attrs := [], typ := "", value := "",
    placeholder := "", name := "", textContent := "", disabled := false,
    isContentEditable := false, rendered := true, fixed := false,
    stamp := Option.none }

def leaf (e : ElemData) : Node := Node.mk e Shadow.null Forest.nil

def goBtnE : ElemData := { baseE 2 "button" with textContent := "Go" }

/-- `<body><button>Go</button></body>` -/
def pageTop1 : Forest :=
  Forest.cons
    (Node.mk (baseE 1 "body") Shadow.null
      (Forest.cons (leaf goBtnE) Forest.nil))
    Forest.nil

/-- The same button nested three shadow-root levels deep:
`<body><c1>#shadow<c2>#shadow<c3>#shadow<button>Go</button>`. -/
def pageShadow3 : Forest :=
  Forest.cons
    (Node.mk (baseE 1 "body") Shadow.null
      (Forest.cons
        (Node.mk (baseE 3 "c1")
          (Shadow.root (Forest.cons
            (Node.mk (baseE 4 "c2")
              (Shadow.root (Forest.cons
                (Node.mk (baseE 5 "c3")
                  (Shadow.root (Forest.cons (leaf { goBtnE with id := 6 })
                    Forest.nil))
                  Forest.nil)
                Forest.nil))
              Forest.nil)
            Forest.nil))
          Forest.nil)
        Forest.nil))
    Forest.nil

def okBtnE : ElemData := { baseE 4 "button" with textContent := "OK" }

/-- A page button plus an open `role=dialog` containing its own button:
`<body><button>Go</button><div role=dialog><button>OK</button></div>`. -/
def pageDialog : Forest :=
  Forest.cons
    (Node.mk (baseE 1 "body") Shadow.null
      (Forest.cons (leaf goBtnE)
        (Forest.cons
          (Node.mk { baseE 3 "div" with attrs := [("role", "dialog")] }
            Shadow.null (Forest.cons (leaf okBtnE) Forest.nil))
          Forest.nil)))
    Forest.nil

/-- A `role=dialog` node hidden inside a shadow root:
`<body><host>#shadow<div role=dialog><button>OK</button></div></body>`. -/
def pageShadowDialog : Forest :=
  Forest.cons
    (Node.mk (baseE 1 "body") Shadow.null
      (Forest.cons
        (Node.mk (baseE 2 "host")
          (Shadow.root (Forest.cons
            (Node.mk { baseE 3 "div" with attrs := [("role", "dialog")] }
              Shadow.null (Forest.cons (leaf okBtnE) Forest.nil))
            Forest.nil))
          Forest.nil)
        Forest.nil))
    Forest.nil

def shadowOkBtn : Node := leaf okBtnE

/-- A page whose only stamped element is a plain button (stamp 0), as after
a scan: used to exercise click/type resolution. -/
def stampedBtnE : ElemData :=
  { baseE 2 "button" with textContent := "Go", stamp := Option.some 0 }

def pageStampedBtn : Forest :=
  Forest.cons
    (Node.mk (baseE 1 "body") Shadow.null
      (Forest.cons (leaf stampedBtnE) Forest.nil))
    Forest.nil

def stStampedBtn : PageState := { doc := pageStampedBtn, bjs := true }

/-- A page whose only stamped element is `<input type=submit>` (stamp 0). -/
def stampedSubmitE : ElemData :=
  { baseE 2 "input" with typ := "submit", stamp := Option.some 0 }

def pageStampedSubmit : Forest :=
  Forest.cons
    (Node.mk (baseE 1 "body") Shadow.null
      (Forest.cons (leaf stampedSubmitE) Forest.nil))
    Forest.nil

def stStampedSubmit : PageState := { doc := pageStampedSubmit, bjs := true }

/-- A page whose only stamped element is an anchor (stamp 0). -/
def stampedAnchorE : ElemData :=
  { baseE 2 "a" with
    attrs := [("href", "https://x/a")],
    textContent := "A", stamp := Option.some 0 }

def pageStampedAnchor : Forest :=
  Forest.cons
    (Node.mk (baseE 1 "body") Shadow.null
      (Forest.cons (leaf stampedAnchorE) Forest.nil))
    Forest.nil

def stStampedAnchor : PageState := { doc := pageStampedAnchor, bjs := true }

def st0 : PageState := { doc := pageTop1, bjs := false }

/-- Anchor with a `javascript:` href and an aria-label (C6). -/
def ceAnchor : ElemData :=
  { baseE 10 "a" with
    attrs := [("href", "javascript:void(0)"), ("aria-label", "L")] }

/-- Input with a value and no label text of any kind (C6). -/
def ceInput : ElemData := { baseE 11 "input" with value := "v" }

/-- Anchor with an http href and no label text of any kind (C6). -/
def ceEmptyAnchor : ElemData :=
  { baseE 12 "a" with attrs := [("href", "https://x/a")] }

/-- The truncated href that the claim expects to be appended for anchors. -/
def shortHrefOf (e : ElemData) : String :=
  let href := attrOf e "href"
  if jsLength href > 60 then jsTake 57 href ++ "..." else href

/- ── Lemmas: data-only tree maps ── -/

mutual

theorem mapDataN_comp (g h : ElemData → ElemData) (n : Node) :
    mapDataN g (mapDataN h n) = mapDataN (fun d => g (h d)) n := by
  cases n with
  | mk d sh ch =>
    simp only [mapDataN, mapDataS_comp g h sh, mapDataF_comp g h ch]

theorem mapDataS_comp (g h : ElemData → ElemData) (sh : Shadow) :
    mapDataS g (mapDataS h sh) = mapDataS (fun d => g (h d)) sh := by
  cases sh with
  | null => simp only [mapDataS]
  | root f => simp only [mapDataS, mapDataF_comp g h f]

theorem mapDataF_comp (g h : ElemData → ElemData) (f : Forest) :
    mapDataF g (mapDataF h f) = mapDataF (fun d => g (h d)) f := by
  cases f with
  | nil => simp only [mapDataF]
  | cons n f' => simp only [mapDataF, mapDataN_comp g h n, mapDataF_comp g h f']

end

theorem mapDataF_congr (g h : ElemData → ElemData) (f : Forest)
    (hp : ∀ d, g d = h d) : mapDataF g f = mapDataF h f := by
  have : g = h := funext hp
  rw [this]

/-- Clearing stamps after any stamping pass is the same as clearing the
stamps of the original document. -/
theorem clearStamps_stampApply (ids : List Nat) (f : Forest) :
    clearStamps (stampApply ids f) = clearStamps f := by
  unfold clearStamps stampApply
  rw [mapDataF_comp]
  apply mapDataF_congr
  intro d
  cases hd : ids.findIdx? (fun i => i == d.id) <;> simp [hd]

theorem clearStamps_clearStamps (f : Forest) :
    clearStamps (clearStamps f) = clearStamps f := by
  unfold clearStamps
  rw [mapDataF_comp]


/- ── Lemmas: membership spec of the shadow-piercing walker ── -/

theorem mem_lightMatchesF (p : Option String → Node → Bool)
    (par : Option String) (f : Forest) (n : Node) :
    n ∈ lightMatchesF p par f ↔
      ∃ pr, (pr, n) ∈ lightElemsF par f ∧ p pr n = true := by
  simp only [lightMatchesF, List.mem_map, List.mem_filter]
  constructor
  · rintro ⟨⟨pr, m⟩, ⟨hm, hp⟩, rfl⟩
    exact ⟨pr, hm, hp⟩
  · rintro ⟨pr, hm, hp⟩
    exact ⟨(pr, n), ⟨hm, hp⟩, rfl⟩

mutual

theorem mem_shadowPassN (p : Option String → Node → Bool) (nd : Node)
    (n : Node) : n ∈ shadowPassN p nd ↔
      ∃ pr, (pr, n) ∈ shadowElemsN nd ∧ p pr n = true := by
  cases nd with
  | mk d sh ch =>
    simp only [shadowPassN, shadowElemsN, List.mem_append,
      mem_shadowPassS p sh n, mem_shadowPassF p ch n, or_and_right,
      exists_or]

theorem mem_shadowPassS (p : Option String → Node → Bool) (sh : Shadow)
    (n : Node) : n ∈ shadowPassS p sh ↔
      ∃ pr, (pr, n) ∈ shadowElemsS sh ∧ p pr n = true := by
  cases sh with
  | null => simp [shadowPassS, shadowElemsS]
  | root f =>
    simp only [shadowPassS, shadowElemsS, List.mem_append,
      mem_lightMatchesF p Option.none f n, mem_shadowPassF p f n,
      or_and_right, exists_or]

theorem mem_shadowPassF (p : Option String → Node → Bool) (f : Forest)
    (n : Node) : n ∈ shadowPassF p f ↔
      ∃ pr, (pr, n) ∈ shadowElemsF f ∧ p pr n = true := by
  cases f with
  | nil => simp [shadowPassF, shadowElemsF]
  | cons nd f' =>
    simp only [shadowPassF, shadowElemsF, List.mem_append,
      mem_shadowPassN p nd n, mem_shadowPassF p f' n, or_and_right,
      exists_or]

end

mutual

theorem mem_deepElemsN (par : Option String) (nd : Node)
    (x : Option String × Node) :
    x ∈ deepElemsN par nd ↔
      x ∈ lightElemsN par nd ∨ x ∈ shadowElemsN nd := by
  cases nd with
  | mk d sh ch =>
    simp only [deepElemsN, lightElemsN, shadowElemsN, List.mem_cons,
      List.mem_append, mem_deepElemsS sh x,
      mem_deepElemsF (Option.some d.tag) ch x]
    tauto

theorem mem_deepElemsS (sh : Shadow) (x : Option String × Node) :
    x ∈ deepElemsS sh ↔ x ∈ shadowElemsS sh := by
  cases sh with
  | null => simp [deepElemsS, shadowElemsS]
  | root f =>
    simp only [deepElemsS, shadowElemsS, List.mem_append,
      mem_deepElemsF Option.none f x]

theorem mem_deepElemsF (par : Option String) (f : Forest)
    (x : Option String × Node) :
    x ∈ deepElemsF par f ↔
      x ∈ lightElemsF par f ∨ x ∈ shadowElemsF f := by
  cases f with
  | nil => simp [deepElemsF, lightElemsF, shadowElemsF]
  | cons nd f' =>
    simp only [deepElemsF, lightElemsF, shadowElemsF, List.mem_append,
      mem_deepElemsN par nd x, mem_deepElemsF par f' x]
    tauto

end

/-- Membership specification of `deepQueryAll`: it returns exactly the
elements, anywhere in the light tree or behind any nesting of shadow
roots, that match the selector predicate. -/
theorem mem_deepQueryAll (p : Option String → Node → Bool)
    (par : Option String) (f : Forest) (n : Node) :
    n ∈ deepQueryAll p par f ↔
      ∃ pr, (pr, n) ∈ deepElemsF par f ∧ p pr n = true := by
  simp only [deepQueryAll, List.mem_append, mem_lightMatchesF,
    mem_shadowPassF]
  constructor
  · rintro (⟨pr, hm, hp⟩ | ⟨pr, hm, hp⟩)
    · exact ⟨pr, (mem_deepElemsF par f (pr, n)).2 (Or.inl hm), hp⟩
    · exact ⟨pr, (mem_deepElemsF par f (pr, n)).2 (Or.inr hm), hp⟩
  · rintro ⟨pr, hm, hp⟩
    rcases (mem_deepElemsF par f (pr, n)).1 hm with h | h
    · exact Or.inl ⟨pr, h, hp⟩
    · exact Or.inr ⟨pr, h, hp⟩

/- ── Lemmas: the dedup loop ── -/

/-- The kept nodes of the scan loop are the first-occurrence dedup of the
visible candidates, in order. -/
theorem scanLoop_fst (key : Node → String) (l : List Node)
    (seen : List String) :
    (scanLoop key l seen).1 =
      specFirstOccur key (l.filter (fun n => visibleE n.data)) seen := by
  induction l generalizing seen with
  | nil => simp [scanLoop, specFirstOccur]
  | cons n rest ih =>
    by_cases hv : visibleE n.data = true
    · have hnv : ¬((!visibleE n.data) = true) := by simp [hv]
      by_cases hs : seen.contains (key n) = true
      · rw [scanLoop, if_neg hnv, if_pos hs,
          List.filter_cons_of_pos (by simpa using hv), specFirstOccur,
          if_pos hs, ih]
      · rw [scanLoop, if_neg hnv, if_neg hs,
          List.filter_cons_of_pos (by simpa using hv), specFirstOccur,
          if_neg hs]
        dsimp only
        rw [ih]
    · have hnv : (!visibleE n.data) = true := by simp [hv]
      rw [scanLoop, if_pos hnv,
        List.filter_cons_of_neg (by simpa using hv), ih]

/-- The pushed entries are exactly the classifier entries of the kept
nodes, in order. -/
theorem scanLoop_snd (key : Node → String) (l : List Node)
    (seen : List String) :
    (scanLoop key l seen).2 =
      (scanLoop key l seen).1.map (fun n => entryOf n.data) := by
  induction l generalizing seen with
  | nil => simp [scanLoop]
  | cons n rest ih =>
    by_cases hv : visibleE n.data = true
    · have hnv : ¬((!visibleE n.data) = true) := by simp [hv]
      by_cases hs : seen.contains (key n) = true
      · rw [scanLoop, if_neg hnv, if_pos hs, ih]
      · rw [scanLoop, if_neg hnv, if_neg hs]
        simp [ih]
    · have hnv : (!visibleE n.data) = true := by simp [hv]
      rw [scanLoop, if_pos hnv, ih]

/-- First-occurrence dedup: the keys of the output are distinct and none of
them was already seen. -/
theorem specFirstOccur_props (key : Node → String) (l : List Node) :
    ∀ seen : List String,
      ((specFirstOccur key l seen).map key).Nodup ∧
        ∀ k ∈ (specFirstOccur key l seen).map key, k ∉ seen := by
  induction l with
  | nil => intro seen; simp [specFirstOccur]
  | cons n rest ih =>
    intro seen
    by_cases hs : seen.contains (key n) = true
    · rw [specFirstOccur, if_pos hs]
      exact ih seen
    · have hns : key n ∉ seen := by simpa [List.elem_iff] using hs
      have ih2 := ih (key n :: seen)
      rw [specFirstOccur, if_neg hs]
      refine ⟨?_, ?_⟩
      · rw [List.map_cons, List.nodup_cons]
        exact ⟨fun hmem => (ih2.2 _ hmem) (List.mem_cons_self _ _), ih2.1⟩
      · intro k hk
        rw [List.map_cons, List.mem_cons] at hk
        rcases hk with rfl | hk
        · exact hns
        · exact fun hsn => (ih2.2 _ hk) (List.mem_cons_of_mem _ hsn)

/-- First-occurrence dedup: every input element's key survives (either it
was already seen or it is represented in the output). -/
theorem specFirstOccur_mem (key : Node → String) (l : List Node) :
    ∀ (seen : List String) (n : Node), n ∈ l →
      key n ∈ seen ∨ key n ∈ (specFirstOccur key l seen).map key := by
  induction l with
  | nil => intro seen n h; cases h
  | cons m rest ih =>
    intro seen n hn
    by_cases hs : seen.contains (key m) = true
    · rw [specFirstOccur, if_pos hs]
      rcases List.mem_cons.1 hn with rfl | hn
      · exact Or.inl (by simpa [List.elem_iff] using hs)
      · exact ih seen n hn
    · rw [specFirstOccur, if_neg hs, List.map_cons]
      rcases List.mem_cons.1 hn with rfl | hn
      · exact Or.inr (List.mem_cons_self _ _)
      · rcases ih (key m :: seen) n hn with hmem | hmem
        · rcases List.mem_cons.1 hmem with heq | hmem
          · exact Or.inr (by rw [heq]; exact List.mem_cons_self _ _)
          · exact Or.inl hmem
        · exact Or.inr (List.mem_cons_of_mem _ hmem)

/-- First-occurrence dedup returns a sublist of its input. -/
theorem specFirstOccur_sublist (key : Node → String) (l : List Node) :
    ∀ seen : List String, (specFirstOccur key l seen).Sublist l := by
  induction l with
  | nil => intro seen; simp [specFirstOccur]
  | cons n rest ih =>
    intro seen
    by_cases hs : seen.contains (key n) = true
    · rw [specFirstOccur, if_pos hs]
      exact (ih seen).cons n
    · rw [specFirstOccur, if_neg hs]
      exact (ih (key n :: seen)).cons₂ n

/- ── Lemmas: modal-scope resolution ── -/

/-- `realDialogs` is exactly the rendered nodes of the light document whose
role is `dialog` or whose `aria-modal` is `true`, in document order. -/
theorem realDialogs_eq (f : Forest) :
    realDialogs f = (lightNodesF f).filter (fun n => dlgRendered n.data &&
      (attrOf n.data "role" == "dialog" ||
        attrOf n.data "aria-modal" == "true")) := by
  rw [realDialogs, dialogCandidates, List.filter_filter]
  apply List.filter_congr
  intro n _
  cases h1 : (attrOf n.data "role" == "dialog") <;>
    cases h2 : (attrOf n.data "aria-modal" == "true") <;>
      cases h3 : dlgRendered n.data <;>
        simp [matchesDialogSel, h1, h2, h3]

/-- When no rendered dialog/modal node exists, the candidate pool consists
exactly of the rendered `role=presentation` nodes. -/
theorem dialogCandidates_eq_pres (f : Forest)
    (h : ∀ n ∈ lightNodesF f, (dlgRendered n.data &&
      (attrOf n.data "role" == "dialog" ||
        attrOf n.data "aria-modal" == "true")) = false) :
    dialogCandidates f = (lightNodesF f).filter (fun n =>
      dlgRendered n.data && (attrOf n.data "role" == "presentation")) := by
  rw [dialogCandidates]
  apply List.filter_congr
  intro n hn
  have hf := h n hn
  cases h3 : dlgRendered n.data <;>
    cases h1 : (attrOf n.data "role" == "dialog") <;>
      cases h2 : (attrOf n.data "aria-modal" == "true") <;>
        simp [h1, h2, h3, matchesDialogSel] at hf ⊢

/-- The two scope prefixes of the dedup key can never be reconciled by the
rest of the key. -/
theorem modalKey_ne_pageKey (s1 s2 : String) :
    "modal" ++ s1 ≠ "page" ++ s2 := by
  intro h
  have hd := congrArg String.data h
  rw [String.data_append, String.data_append,
    show "modal".data = ['m','o','d','a','l'] from rfl,
    show "page".data = ['p','a','g','e'] from rfl] at hd
  simp at hd

/-- The modal-bias sort puts every dialog descendant before every
non-descendant (and nothing else). -/
theorem sortedOf_pairwise (f : Forest) :
    (sortedOf f).Pairwise (fun a b => inTopDialog f b = true →
      inTopDialog f a = true) := by
  rw [sortedOf, List.pairwise_append]
  refine ⟨?_, ?_, ?_⟩
  · apply List.pairwise_of_forall_mem_list
    intro a ha b _ _
    exact (List.mem_filter.1 ha).2
  · apply List.pairwise_of_forall_mem_list
    intro a _ b hb hbT
    have hb2 := (List.mem_filter.1 hb).2
    simp [hbT] at hb2
  · intro a ha b _ _
    exact (List.mem_filter.1 ha).2

/-- The kept nodes are a subsequence of the sorted candidates. -/
theorem scanKept_sublist (f : Forest) :
    (scanKept f).Sublist (sortedOf f) := by
  rw [scanKept, scanLoop_fst]
  exact (specFirstOccur_sublist _ _ _).trans (List.filter_sublist _)

/- ── Claim theorems ── -/

/-- C1: the shadow-piercing walker returns exactly the nodes matching the
selector predicate anywhere in the root's subtree and inside every nested
shadow root reachable from it, at any depth; and a concrete interactive
control three shadow-root levels deep produces the same scan result as an
identical top-level control. -/
theorem C1_shadow_walker_complete :
    (∀ (p : Option String → Node → Bool) (par : Option String) (f : Forest)
      (n : Node), n ∈ deepQueryAll p par f ↔
        ∃ pr, (pr, n) ∈ deepElemsF par f ∧ p pr n = true)
    ∧ scanEntries pageShadow3 = scanEntries pageTop1 :=
  ⟨fun p par f n => mem_deepQueryAll p par f n, by rfl⟩

/-- C2: the scan result never contains two entries with the same
(dialog-scope, label, description) key; every visible candidate's key is
represented; and two nodes in different dialog scopes never share a key
(so an identical label+description pair split across the modal and the
page scope is not collapsed). -/
theorem C2_dedup_invariant (f : Forest) :
    ((scanKept f).map (keyOf f)).Nodup
    ∧ (∀ n ∈ sortedOf f, visibleE n.data = true →
        keyOf f n ∈ (scanKept f).map (keyOf f))
    ∧ (∀ n1 n2 : Node, inTopDialog f n1 = true → inTopDialog f n2 = false →
        keyOf f n1 ≠ keyOf f n2) := by
  refine ⟨?_, ?_, ?_⟩
  · rw [scanKept, scanLoop_fst]
    exact (specFirstOccur_props (keyOf f) _ []).1
  · intro n hn hv
    rw [scanKept, scanLoop_fst]
    have hmem : n ∈ (sortedOf f).filter (fun m => visibleE m.data) :=
      List.mem_filter.2 ⟨hn, hv⟩
    rcases specFirstOccur_mem (keyOf f) _ [] n hmem with h | h
    · cases h
    · exact h
  · intro n1 n2 h1 h2
    simp only [keyOf, h1, h2, if_true, if_false]
    simp only [String.append_assoc]
    exact modalKey_ne_pageKey _ _

/-- C2 witness: on the concrete dialog page, the in-dialog button's key is
represented in the scan result. -/
theorem C2_dedup_invariant_witness :
    keyOf pageDialog (leaf okBtnE) ∈
      (scanKept pageDialog).map (keyOf pageDialog) :=
  (C2_dedup_invariant pageDialog).2.1 (leaf okBtnE) (by decide) (by decide)

/-- C3: the active dialog resolves to the last rendered light-DOM node with
role `dialog` or `aria-modal='true'`, falling back to the last rendered
`role=presentation` node; dialog descendants precede non-descendants among
the kept nodes, so an in-dialog control receives a strictly lower index
than any control outside the dialog. -/
theorem C3_modal_bias (f : Forest) :
    ((lightNodesF f).filter (fun n => dlgRendered n.data &&
        (attrOf n.data "role" == "dialog" ||
          attrOf n.data "aria-modal" == "true")) ≠ [] →
      topDialogOf f = ((lightNodesF f).filter (fun n => dlgRendered n.data &&
        (attrOf n.data "role" == "dialog" ||
          attrOf n.data "aria-modal" == "true"))).getLast?)
    ∧ ((lightNodesF f).filter (fun n => dlgRendered n.data &&
        (attrOf n.data "role" == "dialog" ||
          attrOf n.data "aria-modal" == "true")) = [] →
      topDialogOf f = ((lightNodesF f).filter (fun n => dlgRendered n.data &&
        (attrOf n.data "role" == "presentation"))).getLast?)
    ∧ (scanKept f).Pairwise (fun a b => inTopDialog f b = true →
        inTopDialog f a = true)
    ∧ (∀ (i j : Nat) (hi : i < (scanKept f).length)
        (hj : j < (scanKept f).length),
        inTopDialog f ((scanKept f)[i]) = true →
        inTopDialog f ((scanKept f)[j]) = false → i < j) := by
  have hkept : (scanKept f).Pairwise (fun a b => inTopDialog f b = true →
      inTopDialog f a = true) :=
    List.Pairwise.sublist (scanKept_sublist f) (sortedOf_pairwise f)
  refine ⟨?_, ?_, hkept, ?_⟩
  · intro hne
    have hsome := List.getLast?_isSome.2 hne
    rw [topDialogOf, realDialogs_eq]
    cases h : ((lightNodesF f).filter (fun n => dlgRendered n.data &&
        (attrOf n.data "role" == "dialog" ||
          attrOf n.data "aria-modal" == "true"))).getLast? with
    | none => rw [h] at hsome; cases hsome
    | some d => simp [h]
  · intro hempty
    have hr : realDialogs f = [] := by rw [realDialogs_eq]; exact hempty
    rw [topDialogOf, hr]
    simp only [List.getLast?_nil]
    rw [dialogCandidates_eq_pres]
    intro n hn
    exact Bool.eq_false_iff.mpr (List.filter_eq_nil_iff.1 hempty n hn)
  · intro i j hi hj hTi hFj
    rw [List.pairwise_iff_getElem] at hkept
    by_contra hij
    rcases Nat.lt_or_ge j i with hji | hge
    · have := hkept j i hj hi hji hTi
      rw [this] at hFj
      cases hFj
    · have : i = j := Nat.le_antisymm hge (Nat.le_of_not_lt hij)
      subst this
      rw [hTi] at hFj
      cases hFj

/-- C3 witness: on the concrete dialog page the in-dialog button is kept at
index 0 and the page button at index 1, so 0 < 1 as the claim orders them. -/
theorem C3_modal_bias_witness : (0 : Nat) < 1 :=
  (C3_modal_bias pageDialog).2.2.2 0 1 (by decide) (by decide)
    (by decide) (by decide)

/-- C7: running the scan twice on an unchanged page yields element-wise
identical descriptor lists, even though the stamps were cleared and
reassigned in between. -/
theorem C7_scan_idempotent (doc : Forest) :
    scanEntries (scanDoc doc) = scanEntries doc := by
  show scanEntriesCore (clearStamps (scanDoc doc)) =
    scanEntriesCore (clearStamps doc)
  rw [scanDoc, clearStamps_stampApply, clearStamps_clearStamps]

/-- C8: the dialog candidate pool is gathered by a plain light-DOM document
query, so when no light-DOM node matches the dialog selector there is no
active dialog at all — dialog nodes hidden inside shadow roots never bias
the ordering (the sort is the identity) or the deduplication scope (every
node is page-scoped). -/
theorem C8_shadow_dialog_ignored (f : Forest)
    (h : ∀ n ∈ lightNodesF f, matchesDialogSel n.data = false) :
    topDialogOf f = Option.none ∧ sortedOf f = interactiveOf f ∧
      ∀ n : Node, inTopDialog f n = false := by
  have hc : dialogCandidates f = [] := by
    rw [dialogCandidates, List.filter_eq_nil_iff]
    intro n hn
    simp [h n hn]
  have hr : realDialogs f = [] := by rw [realDialogs, hc]; rfl
  have ht : topDialogOf f = Option.none := by
    rw [topDialogOf, hr, hc]
    rfl
  have hin : ∀ n : Node, inTopDialog f n = false := by
    intro n
    rw [inTopDialog, ht]
  refine ⟨ht, ?_, hin⟩
  rw [sortedOf]
  have h1 : (interactiveOf f).filter (fun n => inTopDialog f n) = [] :=
    List.filter_eq_nil_iff.2 (fun a _ => by simp [hin a])
  have h2 : (interactiveOf f).filter (fun n => !(inTopDialog f n)) =
      interactiveOf f :=
    List.filter_eq_self.2 (fun a _ => by simp [hin a])
  rw [h1, h2, List.nil_append]

/-- C8 witness: on the concrete page whose only dialog node sits inside a
shadow root, the shadow dialog's own button is page-scoped. -/
theorem C8_shadow_dialog_ignored_witness :
    inTopDialog pageShadowDialog shadowOkBtn = false :=
  (C8_shadow_dialog_ignored pageShadowDialog (by decide)).2.2 shadowOkBtn

mutual

theorem lightFindN_none (p : Node → Bool) (nd : Node)
    (h : ∀ m ∈ allNodesN nd, p m = false) : lightFindN p nd = Option.none := by
  cases nd with
  | mk d sh ch =>
    have hch : ∀ m ∈ allNodesF ch, p m = false := by
      intro m hm
      apply h
      rw [allNodesN]
      exact List.mem_cons_of_mem _ (List.mem_append.2 (Or.inr hm))
    have hself : p (Node.mk d sh ch) = false := by
      apply h
      rw [allNodesN]
      exact List.mem_cons_self _ _
    rw [lightFindN, if_neg (by simp [hself])]
    exact lightFindF_none p ch hch

theorem lightFindF_none (p : Node → Bool) (f : Forest)
    (h : ∀ m ∈ allNodesF f, p m = false) : lightFindF p f = Option.none := by
  cases f with
  | nil => rfl
  | cons n f' =>
    have hn : ∀ m ∈ allNodesN n, p m = false := by
      intro m hm
      apply h
      rw [allNodesF]
      exact List.mem_append.2 (Or.inl hm)
    have hf : ∀ m ∈ allNodesF f', p m = false := by
      intro m hm
      apply h
      rw [allNodesF]
      exact List.mem_append.2 (Or.inr hm)
    rw [lightFindF, lightFindN_none p n hn]
    exact lightFindF_none p f' hf

end

mutual

theorem stampShadowF_none (idx : Nat) (f : Forest)
    (h : ∀ m ∈ allNodesF f, m.data.stamp = Option.none) :
    stampShadowF idx f = Option.none := by
  cases f with
  | nil => rfl
  | cons n f' =>
    have hn : ∀ m ∈ allNodesN n, m.data.stamp = Option.none := by
      intro m hm
      apply h
      rw [allNodesF]
      exact List.mem_append.2 (Or.inl hm)
    have hf : ∀ m ∈ allNodesF f', m.data.stamp = Option.none := by
      intro m hm
      apply h
      rw [allNodesF]
      exact List.mem_append.2 (Or.inr hm)
    rw [stampShadowF, stampShadowN_none idx n hn]
    exact stampShadowF_none idx f' hf

theorem stampShadowN_none (idx : Nat) (nd : Node)
    (h : ∀ m ∈ allNodesN nd, m.data.stamp = Option.none) :
    stampShadowN idx nd = Option.none := by
  cases nd with
  | mk d sh ch =>
    have hsh : ∀ m ∈ allNodesS sh, m.data.stamp = Option.none := by
      intro m hm
      apply h
      rw [allNodesN]
      exact List.mem_cons_of_mem _ (List.mem_append.2 (Or.inl hm))
    have hch : ∀ m ∈ allNodesF ch, m.data.stamp = Option.none := by
      intro m hm
      apply h
      rw [allNodesN]
      exact List.mem_cons_of_mem _ (List.mem_append.2 (Or.inr hm))
    rw [stampShadowN, stampShadowS_none idx sh hsh]
    exact stampShadowF_none idx ch hch

theorem stampShadowS_none (idx : Nat) (sh : Shadow)
    (h : ∀ m ∈ allNodesS sh, m.data.stamp = Option.none) :
    stampShadowS idx sh = Option.none := by
  cases sh with
  | null => rfl
  | root f =>
    have hf : ∀ m ∈ allNodesF f, m.data.stamp = Option.none := by
      intro m hm
      apply h
      rwa [allNodesS]
    have hp : ∀ m ∈ allNodesF f, stampIs idx m = false := by
      intro m hm
      simp [stampIs, hf m hm]
    rw [stampShadowS, lightFindF_none (stampIs idx) f hp]
    exact stampShadowF_none idx f hf

end

/-- When no node anywhere in the page carries a stamp, the deep stamp query
finds nothing. -/
theorem deepQueryStamp_none (idx : Nat) (f : Forest)
    (h : ∀ m ∈ allNodesF f, m.data.stamp = Option.none) :
    deepQueryStamp idx f = Option.none := by
  rw [deepQueryStamp, lightFindF_none (stampIs idx) f (fun m hm => by
    simp [stampIs, h m hm])]
  exact stampShadowF_none idx f h

/-- C4: when no stamped node exists anywhere in the page (shadow roots
included), an interaction command's `ensureIndexed` probe fails and a full
scan with no scoping selector runs first; concretely, `click 0` with no
prior scan on a page with exactly one qualifying button succeeds, reporting
that button, which resolves at index 0. -/
theorem C4_auto_index :
    (∀ st : PageState,
      (∀ n ∈ allNodesF st.doc, n.data.stamp = Option.none) →
        ensureIndexed st = (true, scanState st))
    ∧ cmdClick st0 0 = ("Clicked: (button) Go",
        [Act.scan, Act.scroll, Act.mousePressed, Act.mouseReleased])
    ∧ (resolveStamp (scanState st0) 0).map (fun n => n.data.id) =
        Option.some 2 := by
  refine ⟨?_, by rfl, by rfl⟩
  intro st h
  have h1 : lightFindF (fun n => n.data.stamp.isSome) st.doc = Option.none :=
    lightFindF_none _ _ (fun m hm => by simp [h m hm])
  have h2 : deepQueryStamp 0 st.doc = Option.none :=
    deepQueryStamp_none 0 st.doc h
  simp [ensureIndexed, h1, h2]

/-- C4 witness: the concrete unstamped one-button page triggers the
auto-scan. -/
theorem C4_auto_index_witness : ensureIndexed st0 = (true, scanState st0) :=
  C4_auto_index.1 st0 (by decide)

/-- C5: a type command whose resolved node is not a recognized text-entry
shape returns the wrong-element-kind message and dispatches no effect
beyond the possible auto-index scan: no focus click, no clearing, no
insertion. -/
theorem C5_type_wrong_kind (st : PageState) (idx : Nat) (text : String)
    (el : Node)
    (hres : resolveStamp (ensureIndexed st).2 idx = Option.some el)
    (hty : typeableOf el.data = false) :
    (cmdType st idx text).1 = "Element [" ++ toString idx ++ "] is a " ++
      el.data.tag ++ ", not a text input. Run elements to re-index."
    ∧ ∀ a ∈ (cmdType st idx text).2, a = Act.scan := by
  have hcmd : cmdType st idx text =
      ("Element [" ++ toString idx ++ "] is a " ++ el.data.tag ++
        ", not a text input. Run elements to re-index.",
       if (ensureIndexed st).1 then [Act.scan] else []) := by
    simp only [cmdType]
    rw [hres]
    simp [hty]
  refine ⟨by rw [hcmd], ?_⟩
  rw [hcmd]
  intro a ha
  cases h : (ensureIndexed st).1 <;> rw [h] at ha <;> simp at ha
  exact ha

/-- C5 witness: typing into the stamped plain button is rejected with no
side effects. -/
theorem C5_type_wrong_kind_witness :
    (cmdType stStampedBtn 0 "hi").1 =
      "Element [0] is a button, not a text input. Run elements to re-index." :=
  (C5_type_wrong_kind stStampedBtn 0 "hi" (leaf stampedBtnE) rfl rfl).1

/-- C9: the text-entry check accepts any element whose tag is `input`
regardless of its type attribute, so type proceeds to the focus click,
the clearing and the text insertion. -/
theorem C9_type_accepts_any_input (st : PageState) (idx : Nat)
    (text : String) (el : Node)
    (hres : resolveStamp (ensureIndexed st).2 idx = Option.some el)
    (htag : el.data.tag = "input") :
    typeableOf el.data = true
    ∧ (cmdType st idx text).1 = "Typed into [" ++ toString idx ++
        "] (" ++ el.data.tag ++
        (if el.data.isContentEditable then ", contenteditable" else "") ++ ")"
    ∧ Act.mousePressed ∈ (cmdType st idx text).2
    ∧ Act.insertText ∈ (cmdType st idx text).2
    ∧ (Act.clearValue ∈ (cmdType st idx text).2 ∨
        Act.selectAll ∈ (cmdType st idx text).2) := by
  have hty : typeableOf el.data = true := by simp [typeableOf, htag]
  have hcmd : cmdType st idx text =
      ("Typed into [" ++ toString idx ++ "] (" ++ el.data.tag ++
        (if el.data.isContentEditable then ", contenteditable" else "") ++
        ")",
       (if (ensureIndexed st).1 then [Act.scan] else []) ++
         [Act.scroll, Act.mousePressed, Act.mouseReleased] ++
         (if el.data.isContentEditable then
           [Act.selectAll, Act.keyDown, Act.keyUp]
          else [Act.clearValue]) ++ [Act.insertText] ++
         (if el.data.isContentEditable then [] else [Act.setValueSync])) := by
    simp only [cmdType]
    rw [hres]
    simp [hty]
  refine ⟨hty, ?_, ?_, ?_, ?_⟩
  · rw [hcmd]
  · rw [hcmd]
    simp
  · rw [hcmd]
    simp
  · rw [hcmd]
    cases h : el.data.isContentEditable <;> simp

/-- C9 witness: typing into the stamped `<input type=submit>` is accepted
and proceeds. -/
theorem C9_type_accepts_any_input_witness :
    (cmdType stStampedSubmit 0 "hi").1 = "Typed into [0] (input)" :=
  (C9_type_accepts_any_input stStampedSubmit 0 "hi" (leaf stampedSubmitE)
    rfl rfl).2.1

/-- C10: the click confirmation recomputes label and description at click
time (ARIA role, else lowercase tag; aria-label, else text content) instead
of reusing the scan descriptor, so an anchor without a role reports label
`a` although the scan listed it as `link`. -/
theorem C10_click_label_recomputed :
    (∀ e : ElemData, e.tag = "a" → attrOf e "role" = "" →
      isDisabledE e = false →
      clickLabelOf e = "a" ∧ labelOf e = "link" ∧
        clickLabelOf e ≠ labelOf e)
    ∧ (∀ (st : PageState) (idx : Nat) (el : Node),
        resolveStamp (ensureIndexed st).2 idx = Option.some el →
        (cmdClick st idx).1 =
          "Clicked: (" ++ clickLabelOf el.data ++ ") " ++
            clickDescOf el.data) := by
  constructor
  · intro e h1 h2 h3
    refine ⟨?_, ?_, ?_⟩
    · simp [clickLabelOf, h1, h2]
    · simp [labelOf, h1, h2, h3]
    · simp [clickLabelOf, labelOf, h1, h2, h3]
  · intro st idx el hres
    simp only [cmdClick]
    rw [hres]

/-- C10 witness: the stamped anchor's click-time label differs from its
scan label. -/
theorem C10_click_label_recomputed_witness :
    clickLabelOf stampedAnchorE ≠ labelOf stampedAnchorE :=
  (C10_click_label_recomputed.1 stampedAnchorE rfl rfl rfl).2.2

/- ── Lemmas: description derivation (C6) ── -/

/-- The `||` chain of the description base equals first-non-empty over the
priority list. -/
theorem descBase_eq_spec (e : ElemData) :
    descBase e = (([attrOf e "aria-label", textOf e, e.placeholder,
      e.name].find? (fun s => s != "")).getD "") := by
  by_cases h1 : attrOf e "aria-label" = "" <;>
    by_cases h2 : textOf e = "" <;>
      by_cases h3 : e.placeholder = "" <;>
        by_cases h4 : e.name = "" <;>
          simp [descBase, h1, h2, h3, h4]

theorem condValue_eq (d v : String) :
    (if d != "" then d ++ " [" ++ v ++ "]" else v) =
      d ++ (if d = "" then v else " [" ++ v ++ "]") := by
  by_cases h : d = "" <;>
    simp [h, String.empty_append, String.append_assoc]

theorem condArrow_eq (d p : String) :
    (if d != "" then d ++ " → " ++ p else p) =
      d ++ (if d = "" then p else " → " ++ p) := by
  by_cases h : d = "" <;>
    simp [h, String.empty_append, String.append_assoc]

/-- The source's value-append step, rephrased in the amended claim's form. -/
theorem descWithValue_eq_spec (e : ElemData) :
    descWithValue e = descBase e ++
      (if valOf e = "" ∨ strIncludes (descBase e) (valOf e) = true then ""
       else if descBase e = "" then valOf e
       else " [" ++ valOf e ++ "]") := by
  rw [descWithValue]
  by_cases hv : valOf e = ""
  · simp [hv, String.append_empty]
  · by_cases hinc : strIncludes (descBase e) (valOf e) = true
    · simp [hv, hinc, String.append_empty]
    · have hcond : (valOf e != "" &&
          !(strIncludes (descBase e) (valOf e))) = true := by
        simp [hv, hinc]
      have hno : ¬(valOf e = "" ∨ strIncludes (descBase e) (valOf e) = true) :=
        not_or.mpr ⟨hv, hinc⟩
      rw [if_pos hcond, if_neg hno]
      exact condValue_eq _ _

/-- The source's anchor-href step, rephrased in the amended claim's form. -/
theorem descOf_eq_arrow_spec (e : ElemData) :
    descOf e = descWithValue e ++
      (if e.tag = "a" ∧ attrOf e "href" ≠ "" ∧
          jsStartsWith (attrOf e "href") "javascript:" = false then
        (if descWithValue e = "" then
          (if jsLength (attrOf e "href") ≤ 60 then attrOf e "href"
           else jsTake 57 (attrOf e "href") ++ "...")
         else " → " ++
          (if jsLength (attrOf e "href") ≤ 60 then attrOf e "href"
           else jsTake 57 (attrOf e "href") ++ "..."))
       else "") := by
  rw [descOf]
  by_cases h1 : e.tag = "a"
  · by_cases h2 : attrOf e "href" = ""
    · simp [h1, h2, String.append_empty]
    · by_cases h3 : jsStartsWith (attrOf e "href") "javascript:" = true
      · simp [h1, h2, h3, String.append_empty]
      · have h3f : jsStartsWith (attrOf e "href") "javascript:" = false :=
          Bool.eq_false_iff.mpr h3
        have hcond : (e.tag == "a" && attrOf e "href" != "" &&
            !(jsStartsWith (attrOf e "href") "javascript:")) = true := by
          simp [h1, h2, h3f]
        have hshort :
            (if jsLength (attrOf e "href") > 60 then
              jsTake 57 (attrOf e "href") ++ "..." else attrOf e "href") =
            (if jsLength (attrOf e "href") ≤ 60 then attrOf e "href"
             else jsTake 57 (attrOf e "href") ++ "...") := by
          by_cases hl : jsLength (attrOf e "href") ≤ 60
          · rw [if_neg (by omega), if_pos hl]
          · rw [if_pos (by omega), if_neg hl]
        rw [if_pos hcond, hshort,
          if_pos (show e.tag = "a" ∧ attrOf e "href" ≠ "" ∧
            jsStartsWith (attrOf e "href") "javascript:" = false from
            ⟨h1, h2, h3f⟩)]
        exact condArrow_eq _ _
  · have h1f : (e.tag == "a") = false := by simp [h1]
    simp [h1f, h1, String.append_empty]

/-- C6 counterexample: the claim as stated is false on the code.  (a) For
the anchor `ceAnchor` with href `javascript:void(0)` and aria-label `L`,
no truncated href is appended — its description is exactly `L`; in general
the anchor clause fails.  (b) For the input `ceInput` whose only content is
the value `v`, the value is appended bare, not in brackets; in general the
bracket clause fails.  (c) For the anchor `ceEmptyAnchor` with an empty
description, the href is appended without an arrow separator. -/
theorem C6_desc_claim_false :
    (¬ ∀ e : ElemData, e.tag = "a" → attrOf e "href" ≠ "" →
        strIncludes (descOf e) (shortHrefOf e) = true)
    ∧ descOf ceAnchor = "L"
    ∧ (¬ ∀ e : ElemData, valOf e ≠ "" →
        strIncludes (descBase e) (valOf e) = false →
        strIncludes (descOf e) ("[" ++ valOf e ++ "]") = true)
    ∧ descOf ceInput = "v"
    ∧ descOf ceEmptyAnchor = "https://x/a"
    ∧ strIncludes (descOf ceEmptyAnchor) " → " = false := by
  refine ⟨?_, rfl, ?_, rfl, rfl, rfl⟩
  · intro h
    have hc := h ceAnchor rfl (by decide)
    revert hc
    decide
  · intro h
    have hc := h ceInput (by decide) (by decide)
    revert hc
    decide

/-- C6 (amended): the description is the first non-empty of aria-label,
trimmed collapsed visible text (≤ 80 chars), placeholder, name; a
non-empty value not already contained in it is appended — bracketed when
the description is non-empty, bare otherwise; for an anchor whose href is
non-empty and not a `javascript:` URL, the href truncated to at most 60
chars is appended — with an arrow separator when the description is
non-empty, bare otherwise; and the pushed entry truncates the result to
120 chars. -/
theorem C6_desc_amended (e : ElemData) :
    descOf e = specDesc e ∧ (entryOf e).2 = jsTake 120 (specDesc e) := by
  have h : descOf e = specDesc e := by
    rw [descOf_eq_arrow_spec, descWithValue_eq_spec, descBase_eq_spec]
    rfl
  exact ⟨h, by rw [entryOf, h]⟩
